import Mathlib

/-!
Verification of the pymhlib metaheuristic core (population.py, ssga.py, settings.py)
against its natural-language specification.  Python code is shallowly embedded:
pure functions become Lean functions, the stateful initialization loop becomes a
fuel-indexed step function, heap aliasing in the steady-state GA is made explicit
through a store of solution cells addressed by natural numbers, and randomness is
passed in as oracle draws.  Fallible code returns Except over the Python error kinds
that actually occur in the embedded code paths.
-/

/-- Modelled from the spec: solution.py is not part of src.  Per spec section 3 a
solution carries an opaque representation (here an identity tag) and a cached
real-valued objective (here an integer, which suffices for every claim). -/
structure Solution where
  rep : Nat
  obj : Int
deriving DecidableEq, Repr, Inhabited

/-- Modelled from the spec (section 4.1): is_better honours the problem's
maximize/minimize direction, which is the `toMax` flag. -/
def is_better (toMax : Bool) (a b : Solution) : Bool :=
  if toMax then b.obj < a.obj else a.obj < b.obj

/-- Modelled from the spec (section 4.1): is_worse is the mirror of is_better. -/
def is_worse (toMax : Bool) (a b : Solution) : Bool :=
  is_better toMax b a

/-- Modelled from the spec (section 3): is_equal is structural equality; Python's
`==` on solutions is modelled by it (population.duplicates_of compares with `==`). -/
def is_equal (a b : Solution) : Bool :=
  decide (a = b)

/-- Direction-normalised key: smaller key means better solution.  Used only in
proofs about the linear scans of population.py. -/
def keyB (toMax : Bool) (s : Solution) : Int :=
  if toMax then -s.obj else s.obj

/-- Negated direction key, the key under which the worst scan is extremal.  Used
only in proofs. -/
def keyW (toMax : Bool) (s : Solution) : Int :=
  -(keyB toMax s)

/-- Python error kinds raised by the embedded code paths.  Note that the source
defines no InvalidConfiguration and no PopulationInitFailed error. -/
inductive PyError where
  | valueError
  | statisticsError
  | indexError
deriving DecidableEq, Repr

/-- Linear scan of population.py lines 50-58 and 60-68: start at index 0 and move
to index i whenever `lt pop[i] pop[current]` holds.  `n` is the range bound
(`len(self)` in the source). -/
def scanBest (lt : Solution → Solution → Bool) (pop : List Solution) (n : Nat) : Nat :=
  (List.range n).foldl
    (fun b i => if lt (pop.getD i default) (pop.getD b default) then i else b) 0

/-- Population.best (population.py lines 50-58). -/
def Population.best (toMax : Bool) (pop : List Solution) : Nat :=
  scanBest (is_better toMax) pop pop.length

/-- Population.worst (population.py lines 60-68). -/
def Population.worst (toMax : Bool) (pop : List Solution) : Nat :=
  scanBest (is_worse toMax) pop pop.length

/-- Population.selection (population.py lines 70-82), the tournament selection the
spec calls `select()`.  The random draws are passed in as an oracle: `first` is the
outcome of the initial `random.randint(1, len(self)-1)` and `rest` holds the
outcomes of the `k-1` further draws, so `rest.length + 1 = mh_tournament_size`
(randint is inclusive on both ends, hence each draw lies in `[1, len-1]`). -/
def Population.selection (toMax : Bool) (pop : List Solution) (first : Nat)
    (rest : List Nat) : Nat :=
  rest.foldl
    (fun best ind =>
      if is_better toMax (pop.getD ind default) (pop.getD best default) then ind else best)
    first

/-- Helper for Population.duplicates_of: the enumerate loop of population.py
lines 84-93, carrying the running index. -/
def dupAux (sol : Solution) : Nat → List Solution → List Nat
  | _, [] => []
  | idx, ind :: rest =>
    if is_equal ind sol then idx :: dupAux sol (idx + 1) rest
    else dupAux sol (idx + 1) rest

/-- Population.duplicates_of (population.py lines 84-93). -/
def Population.duplicates_of (pop : List Solution) (sol : Solution) : List Nat :=
  dupAux sol 0 pop

/-- Population.obj_avg (population.py lines 95-105): raises ValueError on an empty
population, otherwise returns the mean objective. -/
def Population.obj_avg (pop : List Solution) : Except PyError ℚ :=
  if pop.length < 1 then .error .valueError
  else .ok ((pop.map (fun s => (s.obj : ℚ))).sum / (pop.length : ℚ))

/-- Population.obj_std (population.py lines 107-114).  statistics.stdev raises
StatisticsError when given fewer than two data points; on success it returns the
square root of the sample variance.  The square root of a rational is modelled up
to squaring: the ok value here is the square of Python's return value (the sample
variance), and the error behaviour is identical to the source's. -/
def Population.obj_std (pop : List Solution) : Except PyError ℚ :=
  if (pop.map (fun s => (s.obj : ℚ))).length < 2 then .error .statisticsError
  else
    .ok (((pop.map (fun s => (s.obj : ℚ))).map
        (fun x => (x - (pop.map (fun s => (s.obj : ℚ))).sum / ((pop.map (fun s => (s.obj : ℚ))).length : ℚ)) ^ 2)).sum
      / (((pop.map (fun s => (s.obj : ℚ))).length : ℚ) - 1))

/-- A construction heuristic method: `m.func(sol, m.par, res)` of the source is
modelled as a function from the solution it receives (population.py reassigns
`sol` to the previous candidate's copy each iteration) to the constructed solution
together with the `res.terminate` flag it sets. -/
abbrev ConstrMethod := Solution → Solution × Bool

/-- State of the population initialization loop of population.py lines 31-48:
the population built so far, the current `sol` variable (the copy source of the
next iteration), and the position in the method cycle. -/
structure InitState where
  pop : List Solution
  sol : Solution
  methIdx : Nat
deriving DecidableEq, Repr

/-- Outcome of running the initialization loop for a bounded number of
iterations: either the while loop has exited with a population, or it is still
running in the given state.  The source raises no exception in this loop, which
is why there is no error alternative here. -/
inductive InitOutcome where
  | done (pop : List Solution)
  | running (st : InitState)
deriving DecidableEq, Repr

/-- The construction call of one loop iteration: `m = next(meths_cycle);
sol = sol.copy(); m.func(sol, m.par, res)` (population.py lines 36-39).  The
cycle is the method list indexed modulo its length. -/
def initConstruct (meths : List ConstrMethod) (st : InitState) : Solution × Bool :=
  meths.getD (st.methIdx % meths.length) (fun s => (s, false)) st.sol

/-- One iteration of the population initialization while loop (population.py
lines 35-48): check the size guard, construct, reject duplicates when mh_dupelim
is set (`continue`), otherwise append and stop when the result signals
terminate. -/
def initStep (popSize : Nat) (dupelim : Bool) (meths : List ConstrMethod)
    (st : InitState) : InitOutcome :=
  if st.pop.length < popSize then
    if dupelim ∧ Population.duplicates_of st.pop (initConstruct meths st).1 ≠ [] then
      .running ⟨st.pop, (initConstruct meths st).1, st.methIdx + 1⟩
    else if (initConstruct meths st).2 then
      .done (st.pop ++ [(initConstruct meths st).1])
    else
      .running ⟨st.pop ++ [(initConstruct meths st).1], (initConstruct meths st).1,
        st.methIdx + 1⟩
  else .done st.pop

/-- The initialization while loop run for at most `fuel` iterations.  A
`running` result means the loop has not exited after `fuel` iterations. -/
def initLoop (popSize : Nat) (dupelim : Bool) (meths : List ConstrMethod) :
    Nat → InitState → InitOutcome
  | 0, st => .running st
  | fuel + 1, st =>
    match initStep popSize dupelim meths st with
    | .done pop => .done pop
    | .running st2 => initLoop popSize dupelim meths fuel st2

/-- Heap-explicit state of the steady-state GA: `store` is the set of solution
allocations (addresses are list indices), `popAddrs` the addresses held by the
population slots, `incumbent` the address the incumbent name is bound to.  This
makes the aliasing structure of ssga.py observable. -/
structure SSGAState where
  store : List Solution
  popAddrs : List Nat
  incumbent : Nat
deriving DecidableEq, Repr

/-- SteadyStateGeneticAlgorithm.__init__ line 58 after the population has been
built: `self.incumbent = self.population[self.population.best()]` binds the
incumbent name to the object in the best population slot (no copy).  An empty
population makes the indexing raise IndexError.  The store is the population's
own allocations, addressed 0..len-1. -/
def ssgaMakeState (toMax : Bool) (pop : List Solution) : Except PyError SSGAState :=
  if Population.best toMax pop < pop.length then
    .ok ⟨pop, List.range pop.length,
      (List.range pop.length).getD (Population.best toMax pop) 0⟩
  else .error .indexError

/-- Oracle for one iteration of SteadyStateGeneticAlgorithm.run (ssga.py lines
65-103): the two tournament results, the two probability-comparison outcomes, and
the net effect of `perform_methods` on the working solution.  perform_methods
lives in scheduler.py, which is not part of src; modelled from the spec (section
4.3) as an opaque transformation of the working solution returning the
`terminate` flag of its Result. -/
structure RunOracle where
  sel1 : Nat
  crossDraw : Bool
  sel2 : Nat
  locDraw : Bool
  pm : Solution → Solution × Bool

/-- Outcome of one run() iteration: `exited` for the `break` on terminate,
`looped` when control reaches the bottom of the while body. -/
inductive IterOutcome where
  | exited (st : SSGAState)
  | looped (st : SSGAState)
deriving DecidableEq, Repr

/-- The population as seen through the store. -/
def iterPop (st : SSGAState) : List Solution :=
  st.popAddrs.map (fun a => st.store.getD a default)

/-- The first selected parent's value (ssga.py line 67). -/
def iterParent (st : SSGAState) (o : RunOracle) : Solution :=
  (iterPop st).getD o.sel1 default

/-- The store after the working copy `p1` (and, with crossover, the copy of the
second parent) has been allocated; `p1`'s address is the old store length. -/
def iterAlloc (st : SSGAState) (o : RunOracle) : List Solution :=
  if o.crossDraw then st.store ++ [iterParent st o, (iterPop st).getD o.sel2 default]
  else st.store ++ [iterParent st o]

/-- The result of perform_methods on the working copy: the mutated child and the
terminate flag (ssga.py line 92). -/
def iterChild (st : SSGAState) (o : RunOracle) : Solution × Bool :=
  o.pm (iterParent st o)

/-- The store after perform_methods has mutated `p1` in place. -/
def iterStore3 (st : SSGAState) (o : RunOracle) : List Solution :=
  (iterAlloc st o).set st.store.length (iterChild st o).1

/-- `population.worst()` computed after perform_methods (ssga.py line 98). -/
def iterWorst (toMax : Bool) (st : SSGAState) (o : RunOracle) : Nat :=
  Population.worst toMax (st.popAddrs.map (fun a => (iterStore3 st o).getD a default))

/-- The store after `population[worst].copy_from(p1)` (ssga.py line 99): the
worst slot's allocation is overwritten with the child's value, addresses are
unchanged. -/
def iterStore4 (toMax : Bool) (st : SSGAState) (o : RunOracle) : List Solution :=
  (iterStore3 st o).set (st.popAddrs.getD (iterWorst toMax st o) 0) (iterChild st o).1

/-- One iteration of SteadyStateGeneticAlgorithm.run (ssga.py lines 65-103).  On
terminate the body breaks before the replacement and the incumbent update; when
the child is better than the incumbent, line 103 rebinds `self.incumbent` to the
working copy `p1` (an address rebinding, not a copy_from).  The `select()` calls
of the source dispatch to the tournament selection the Population class defines
(named `selection` there); the draw results enter through the oracle. -/
def runIteration (toMax : Bool) (st : SSGAState) (o : RunOracle) : IterOutcome :=
  if (iterChild st o).2 then
    .exited ⟨iterStore3 st o, st.popAddrs, st.incumbent⟩
  else if is_better toMax (iterChild st o).1
      ((iterStore4 toMax st o).getD st.incumbent default) then
    .looped ⟨iterStore4 toMax st o, st.popAddrs, st.store.length⟩
  else
    .looped ⟨iterStore4 toMax st o, st.popAddrs, st.incumbent⟩

/-- The recognized options of the settings snapshot (spec section 3).  seed and
the mh_pop_size / mh_tournament_size / mh_dupelim / mh_ssga_cross_prob /
mh_ssga_loc_prob registrations are in src (settings.py, population.py, ssga.py);
the scheduler's mh_titer family is modelled from the spec, scheduler.py not being
part of src.  The two SSGA probabilities are declared with type=int in the source
but carry fractional defaults, hence rationals here. -/
structure Settings where
  seed : Nat
  mh_titer : Int
  mh_tciter : Int
  mh_ttime : Int
  mh_tobj : ℚ
  mh_lfreq : Int
  mh_pop_size : Nat
  mh_tournament_size : Nat
  mh_dupelim : Bool
  mh_ssga_cross_prob : ℚ
  mh_ssga_loc_prob : ℚ
deriving DecidableEq, Repr

/-- seed_random_generators (settings.py lines 88-94).  `draw` is the outcome of
`np.random.randint(np.iinfo(np.int32).max)` after the OS-entropy reseed, i.e. a
uniform integer in `[0, 2^31 - 2]` (numpy's randint excludes the upper bound).
Returns the updated settings snapshot together with the seeds passed to
np.random.seed and random.seed. -/
def seed_random_generators (s : Settings) (draw : Nat) : Settings × Nat × Nat :=
  if s.seed = 0 then ({ s with seed := draw }, draw, draw)
  else (s, s.seed, s.seed)

/-- save_settings (settings.py lines 97-100).  Modelled from the spec (section
6): pickle is an external library and the blob format is opaque; the blob is
modelled as the settings value itself, which is exactly the round-trip-equality
contract the spec states for it. -/
def save_settings (s : Settings) : Settings := s

/-- load_settings (settings.py lines 103-108): restore the pickled namespace and
then call seed_random_generators, which resamples the seed when the restored
seed is 0. -/
def load_settings (blob : Settings) (draw : Nat) : Settings :=
  (seed_random_generators blob draw).1

/-- SteadyStateGeneticAlgorithm.__init__ (ssga.py lines 37-58): build the
population (running the initialization loop for at most `fuel` iterations), then
bind the incumbent.  `none` means the fuel bound was hit before the loop exited
(a model artifact, not a Python behaviour); the inner Except carries the Python
errors.  No configuration validation of any kind happens on this path. -/
def ssgaInit (toMax : Bool) (cfg : Settings) (meths : List ConstrMethod)
    (proto : Solution) (fuel : Nat) : Option (Except PyError SSGAState) :=
  match initLoop cfg.mh_pop_size cfg.mh_dupelim meths fuel ⟨[], proto, 0⟩ with
  | .done pop => some (ssgaMakeState toMax pop)
  | .running _ => none

/-- Default values of the recognized options as registered by the parsers
(population.py lines 13-15, ssga.py lines 14-15, settings.py line 35); the
scheduler family's defaults follow the spec. -/
def defaultSettings : Settings :=
  { seed := 0, mh_titer := 10000, mh_tciter := -1, mh_ttime := -1, mh_tobj := -1,
    mh_lfreq := 0, mh_pop_size := 100, mh_tournament_size := 10, mh_dupelim := false,
    mh_ssga_cross_prob := 1, mh_ssga_loc_prob := 1 / 10 }

/-- A snapshot with seed 0, as configured when the user wants a random seed. -/
def cfgSeed0 : Settings := defaultSettings

/-- A snapshot with mh_ssga_cross_prob = 2, outside the spec's range [0,1]. -/
def cfgBadProb : Settings :=
  { defaultSettings with seed := 42, mh_pop_size := 2, mh_ssga_cross_prob := 2 }

/-- A snapshot with mh_pop_size = 0, below the spec's minimum of 1. -/
def cfgZeroPop : Settings :=
  { defaultSettings with seed := 42, mh_pop_size := 0 }

/-- The prototype solution handed to the population constructor in scenarios. -/
def protoSol : Solution := ⟨0, 0⟩

/-- The fixed solution produced by the deterministic construction method of the
duplicate-elimination scenario. -/
def cdup : Solution := ⟨7, 1⟩

/-- A construction method that deterministically produces the same solution and
never signals terminate (the scenario of spec section 8, test 3). -/
def mdup : ConstrMethod := fun _ => (cdup, false)

/-- The solution produced by the terminating construction method. -/
def cterm : Solution := ⟨3, 4⟩

/-- A construction method whose result signals terminate, so initialization
stops early with a short population. -/
def mterm : ConstrMethod := fun _ => (cterm, true)

/-- First deterministic construction method of the no-validation scenario. -/
def m1c : ConstrMethod := fun _ => (⟨1, 5⟩, false)

/-- Second deterministic construction method of the no-validation scenario. -/
def m2c : ConstrMethod := fun _ => (⟨2, 3⟩, false)

/-- A two-member population used in concrete SSGA scenarios (minimization,
objectives 5 and 3, so index 1 is best and index 0 is worst). -/
def pop2 : List Solution := [⟨0, 5⟩, ⟨1, 3⟩]

/-- The population of spec section 8, test 2: ten solutions with objectives
[5, 1, 9, 2, 7, 3, 8, 4, 6, 10], minimization. -/
def pop10 : List Solution :=
  [⟨0, 5⟩, ⟨1, 1⟩, ⟨2, 9⟩, ⟨3, 2⟩, ⟨4, 7⟩, ⟨5, 3⟩, ⟨6, 8⟩, ⟨7, 4⟩, ⟨8, 6⟩, ⟨9, 10⟩]

/-- The SSGA state after initialization on pop2. -/
def st2 : SSGAState := ⟨pop2, [0, 1], 1⟩

/-- An oracle whose perform_methods effect signals terminate. -/
def oT : RunOracle := ⟨0, false, 0, false, fun s => (s, true)⟩

/-- An oracle whose perform_methods effect produces an improving child (objective
0) and does not terminate. -/
def oImp : RunOracle := ⟨0, false, 0, false, fun _ => (⟨9, 0⟩, false)⟩

/-- The SSGA state after one improving iteration from st2 under oImp: the worst
slot (address 0) has been overwritten with the child, the working copy lives in
the fresh cell at address 2, and the incumbent has been rebound to address 2. -/
def st2x : SSGAState := ⟨[⟨9, 0⟩, ⟨1, 3⟩, ⟨9, 0⟩], [0, 1], 2⟩

/-! Helper lemmas about list indexing, the direction key, and the linear scans. -/

theorem getD_append_lt {α : Type} (l l2 : List α) (d : α) (i : Nat) (h : i < l.length) :
    (l ++ l2).getD i d = l.getD i d := by
  induction l generalizing i with
  | nil => simp at h
  | cons x xs ih =>
    cases i with
    | zero => rfl
    | succ j =>
      have hj : j < xs.length := by simpa using h
      simp only [List.cons_append, List.getD_cons_succ]
      exact ih j hj

theorem getD_append_length {α : Type} (l : List α) (x d : α) :
    (l ++ [x]).getD l.length d = x := by
  induction l with
  | nil => rfl
  | cons y ys ih =>
    simp only [List.cons_append, List.length_cons, List.getD_cons_succ]
    exact ih

theorem getD_set_ne_addr {α : Type} (l : List α) (d a : α) (i j : Nat) (h : j ≠ i) :
    (l.set i a).getD j d = l.getD j d := by
  induction l generalizing i j with
  | nil => rfl
  | cons x xs ih =>
    cases i with
    | zero =>
      cases j with
      | zero => exact absurd rfl h
      | succ k => rfl
    | succ i2 =>
      cases j with
      | zero => rfl
      | succ k =>
        have hk : k ≠ i2 := fun he => h (by rw [he])
        simpa using ih i2 k hk

theorem getD_range_self (n b : Nat) (h : b < n) : (List.range n).getD b 0 = b := by
  induction n with
  | zero => omega
  | succ m ih =>
    rw [List.range_succ]
    rcases Nat.lt_or_ge b m with hb | hb
    · rw [getD_append_lt _ _ _ _ (by simpa using hb)]
      exact ih hb
    · have hbm : b = m := by omega
      subst hbm
      have hlen : (List.range b).length = b := List.length_range b
      calc (List.range b ++ [b]).getD b 0
          = (List.range b ++ [b]).getD (List.range b).length 0 := by rw [hlen]
        _ = b := getD_append_length _ _ _

theorem is_better_true_iff (toMax : Bool) (a b : Solution) :
    is_better toMax a b = true ↔ keyB toMax a < keyB toMax b := by
  cases toMax <;> simp [is_better, keyB]

theorem is_better_false_iff (toMax : Bool) (a b : Solution) :
    is_better toMax a b = false ↔ keyB toMax b ≤ keyB toMax a := by
  rw [← Bool.not_eq_true, is_better_true_iff]
  omega

theorem is_worse_true_iff (toMax : Bool) (a b : Solution) :
    is_worse toMax a b = true ↔ keyB toMax b < keyB toMax a := by
  rw [is_worse, is_better_true_iff]

theorem is_worse_false_iff (toMax : Bool) (a b : Solution) :
    is_worse toMax a b = false ↔ keyB toMax a ≤ keyB toMax b := by
  rw [is_worse, is_better_false_iff]

theorem scanBest_succ (lt : Solution → Solution → Bool) (pop : List Solution) (n : Nat) :
    scanBest lt pop (n + 1)
      = (if lt (pop.getD n default) (pop.getD (scanBest lt pop n) default) then n
         else scanBest lt pop n) := by
  unfold scanBest
  rw [List.range_succ, List.foldl_append]
  rfl

theorem scanBest_spec (key : Solution → Int) (lt : Solution → Solution → Bool)
    (hlt : ∀ a b, lt a b = true ↔ key a < key b) (pop : List Solution) :
    ∀ n, 0 < n →
      scanBest lt pop n < n
      ∧ (∀ j, j < n →
          key (pop.getD (scanBest lt pop n) default) ≤ key (pop.getD j default))
      ∧ (∀ i, i < scanBest lt pop n →
          key (pop.getD (scanBest lt pop n) default) < key (pop.getD i default)) := by
  intro n
  induction n with
  | zero => intro h; omega
  | succ m ih =>
    intro _
    rcases Nat.eq_zero_or_pos m with hm | hm
    · subst hm
      have h0 : scanBest lt pop 1 = 0 := by
        rw [scanBest_succ]
        split <;> rfl
      rw [h0]
      refine ⟨by omega, ?_, by omega⟩
      intro j hj
      have hj0 : j = 0 := by omega
      subst hj0
      exact le_refl _
    · obtain ⟨ha, hb, hc⟩ := ih hm
      rw [scanBest_succ]
      by_cases hl : lt (pop.getD m default) (pop.getD (scanBest lt pop m) default) = true
      · have hkey := (hlt _ _).mp hl
        rw [if_pos hl]
        refine ⟨by omega, ?_, ?_⟩
        · intro j hj
          rcases Nat.lt_or_ge j m with h1 | h1
          · have := hb j h1
            omega
          · have hjm : j = m := by omega
            subst hjm
            exact le_refl _
        · intro i hi
          have := hb i (by omega)
          omega
      · have hkey : ¬ key (pop.getD m default) < key (pop.getD (scanBest lt pop m) default) :=
          fun hc2 => hl ((hlt _ _).mpr hc2)
        rw [if_neg hl]
        refine ⟨by omega, ?_, hc⟩
        intro j hj
        rcases Nat.lt_or_ge j m with h1 | h1
        · exact hb j h1
        · have hjm : j = m := by omega
          subst hjm
          omega

theorem selection_fold_spec (toMax : Bool) (pop : List Solution) :
    ∀ (rest : List Nat) (first : Nat),
      1 ≤ first ∧ first ≤ pop.length - 1 →
      (∀ d ∈ rest, 1 ≤ d ∧ d ≤ pop.length - 1) →
      (1 ≤ Population.selection toMax pop first rest
        ∧ Population.selection toMax pop first rest ≤ pop.length - 1)
      ∧ Population.selection toMax pop first rest ∈ first :: rest
      ∧ ∀ d ∈ first :: rest,
          is_better toMax (pop.getD d default)
            (pop.getD (Population.selection toMax pop first rest) default) = false := by
  intro rest
  induction rest with
  | nil =>
    intro first hf _
    refine ⟨hf, by simp [Population.selection], ?_⟩
    intro d hd
    have hd1 : d = first := by simpa using hd
    subst hd1
    show is_better toMax (pop.getD d default) (pop.getD d default) = false
    rw [is_better_false_iff]
  | cons d rest ih =>
    intro first hf hr
    have hd := hr d (by simp)
    have hrest : ∀ e ∈ rest, 1 ≤ e ∧ e ≤ pop.length - 1 := fun e he => hr e (by simp [he])
    have hsel : Population.selection toMax pop first (d :: rest)
        = Population.selection toMax pop
            (if is_better toMax (pop.getD d default) (pop.getD first default) then d
             else first) rest := rfl
    by_cases hsplit : is_better toMax (pop.getD d default) (pop.getD first default) = true
    · have hf2 : 1 ≤ d ∧ d ≤ pop.length - 1 := hd
      obtain ⟨hb, hmem, hbest⟩ := ih d hf2 hrest
      rw [hsel, if_pos hsplit]
      refine ⟨hb, ?_, ?_⟩
      · rcases List.mem_cons.mp hmem with h | h
        · exact List.mem_cons.mpr (Or.inr (by simp [h]))
        · exact List.mem_cons.mpr (Or.inr (by simp [h]))
      · intro e he
        rcases List.mem_cons.mp he with he1 | he2
        · subst he1
          have h1 := (is_better_true_iff toMax _ _).mp hsplit
          have h2 := (is_better_false_iff toMax _ _).mp (hbest d (by simp))
          rw [is_better_false_iff]
          omega
        · rcases List.mem_cons.mp he2 with he3 | he4
          · subst he3
            exact hbest e (by simp)
          · exact hbest e (by simp [he4])
    · have hsplit2 : is_better toMax (pop.getD d default) (pop.getD first default) = false :=
        by simpa using hsplit
      obtain ⟨hb, hmem, hbest⟩ := ih first hf hrest
      rw [hsel, if_neg hsplit]
      refine ⟨hb, ?_, ?_⟩
      · rcases List.mem_cons.mp hmem with h | h
        · exact List.mem_cons.mpr (Or.inl h)
        · exact List.mem_cons.mpr (Or.inr (by simp [h]))
      · intro e he
        rcases List.mem_cons.mp he with he1 | he2
        · subst he1
          exact hbest e (by simp)
        · rcases List.mem_cons.mp he2 with he3 | he4
          · subst he3
            have h1 := (is_better_false_iff toMax _ _).mp hsplit2
            have h2 := (is_better_false_iff toMax _ _).mp (hbest first (by simp))
            rw [is_better_false_iff]
            omega
          · exact hbest e (by simp [he4])

theorem dupAux_mem (sol : Solution) :
    ∀ (xs : List Solution) (i j : Nat),
      j ∈ dupAux sol i xs
        ↔ ∃ t, t < xs.length ∧ is_equal (xs.getD t default) sol = true ∧ j = i + t := by
  intro xs
  induction xs with
  | nil => intro i j; simp [dupAux]
  | cons x xs ih =>
    intro i j
    by_cases hx : is_equal x sol = true
    · rw [show dupAux sol i (x :: xs) = i :: dupAux sol (i + 1) xs by simp [dupAux, hx]]
      constructor
      · intro hj
        rcases List.mem_cons.mp hj with h | h
        · exact ⟨0, by simp, by simpa using hx, by omega⟩
        · obtain ⟨t, ht, he, hj2⟩ := (ih (i + 1) j).mp h
          exact ⟨t + 1, by simpa using ht, by simpa using he, by omega⟩
      · rintro ⟨t, ht, he, hj2⟩
        cases t with
        | zero => exact List.mem_cons.mpr (Or.inl (by omega))
        | succ t2 =>
          refine List.mem_cons.mpr (Or.inr ((ih (i + 1) j).mpr ⟨t2, ?_, ?_, by omega⟩))
          · simpa using ht
          · simpa using he
    · have hx2 : is_equal x sol = false := by simpa using hx
      rw [show dupAux sol i (x :: xs) = dupAux sol (i + 1) xs by simp [dupAux, hx2]]
      constructor
      · intro hj
        obtain ⟨t, ht, he, hj2⟩ := (ih (i + 1) j).mp hj
        exact ⟨t + 1, by simpa using ht, by simpa using he, by omega⟩
      · rintro ⟨t, ht, he, hj2⟩
        cases t with
        | zero =>
          rw [List.getD_cons_zero] at he
          exact absurd he hx
        | succ t2 =>
          refine (ih (i + 1) j).mpr ⟨t2, ?_, ?_, by omega⟩
          · simpa using ht
          · simpa using he

theorem dupAux_lower_bound (sol : Solution) :
    ∀ (xs : List Solution) (i : Nat), ∀ j ∈ dupAux sol i xs, i ≤ j := by
  intro xs
  induction xs with
  | nil => intro i j hj; simp [dupAux] at hj
  | cons x xs ih =>
    intro i j hj
    by_cases hx : is_equal x sol = true
    · rw [show dupAux sol i (x :: xs) = i :: dupAux sol (i + 1) xs by simp [dupAux, hx]] at hj
      rcases List.mem_cons.mp hj with h | h
      · omega
      · have := ih (i + 1) j h
        omega
    · have hx2 : is_equal x sol = false := by simpa using hx
      rw [show dupAux sol i (x :: xs) = dupAux sol (i + 1) xs by simp [dupAux, hx2]] at hj
      have := ih (i + 1) j hj
      omega

theorem dupAux_pairwise (sol : Solution) :
    ∀ (xs : List Solution) (i : Nat), (dupAux sol i xs).Pairwise (· < ·) := by
  intro xs
  induction xs with
  | nil => intro i; simp [dupAux]
  | cons x xs ih =>
    intro i
    by_cases hx : is_equal x sol = true
    · rw [show dupAux sol i (x :: xs) = i :: dupAux sol (i + 1) xs by simp [dupAux, hx]]
      refine List.pairwise_cons.mpr ⟨?_, ih (i + 1)⟩
      intro j hj
      have := dupAux_lower_bound sol xs (i + 1) j hj
      omega
    · have hx2 : is_equal x sol = false := by simpa using hx
      rw [show dupAux sol i (x :: xs) = dupAux sol (i + 1) xs by simp [dupAux, hx2]]
      exact ih (i + 1)

theorem initLoop_succ (popSize : Nat) (dupelim : Bool) (meths : List ConstrMethod)
    (fuel : Nat) (st : InitState) :
    initLoop popSize dupelim meths (fuel + 1) st
      = match initStep popSize dupelim meths st with
        | .done pop => .done pop
        | .running st2 => initLoop popSize dupelim meths fuel st2 := rfl

theorem dup_loop_stuck (n : Nat) :
    ∀ i, initLoop 5 true [mdup] n ⟨[cdup], cdup, i⟩ = .running ⟨[cdup], cdup, i + n⟩ := by
  induction n with
  | zero => intro i; rfl
  | succ m ih =>
    intro i
    have hconstr : initConstruct [mdup] ⟨[cdup], cdup, i⟩ = (cdup, false) := by
      unfold initConstruct
      simp [Nat.mod_one, mdup]
    have hstep : initStep 5 true [mdup] ⟨[cdup], cdup, i⟩ = .running ⟨[cdup], cdup, i + 1⟩ := by
      unfold initStep
      rw [hconstr]
      simp [Population.duplicates_of, dupAux, is_equal]
    show initLoop 5 true [mdup] (m + 1) ⟨[cdup], cdup, i⟩ = _
    unfold initLoop
    rw [hstep]
    have harith : i + 1 + m = i + (m + 1) := by omega
    show initLoop 5 true [mdup] m ⟨[cdup], cdup, i + 1⟩ = _
    rw [ih (i + 1), harith]

/-- Claim C2, counterexample.  The claim states that with mh_dupelim set and
construction methods whose outputs always duplicate an existing member,
initialization fails with PopulationInitFailed after 100 x mh_pop_size
consecutive rejections — in particular that it always terminates.  In the code
(population.py lines 35-48) there is no rejection counter and no
PopulationInitFailed: with mh_pop_size = 5 the claimed budget is 500 rejections,
yet after 502 loop iterations (1 acceptance followed by 501 consecutive
rejections, exceeding the budget) the loop is still running with a population of
size one, having raised nothing. -/
theorem dup_rejection_unbounded_cex :
    initLoop 5 true [mdup] 502 ⟨[], protoSol, 0⟩ = .running ⟨[cdup], cdup, 502⟩
    ∧ 100 * 5 + 1 = 501 := by
  constructor
  · have hstep0 : initStep 5 true [mdup] ⟨[], protoSol, 0⟩ = .running ⟨[cdup], cdup, 1⟩ := by
      decide
    have h1 : initLoop 5 true [mdup] 502 ⟨[], protoSol, 0⟩
        = initLoop 5 true [mdup] 501 ⟨[cdup], cdup, 1⟩ := by
      rw [show (502 : Nat) = 501 + 1 from rfl, initLoop_succ, hstep0]
    rw [h1, dup_loop_stuck 501 1]
  · norm_num

/-- Claim C2, amended.  With mh_dupelim set, a candidate whose duplicates_of
list is non-empty is rejected without changing the population and construction
moves on to the next method in the cycle; but there is no rejection budget and
no PopulationInitFailed error in the code: when every constructed candidate
duplicates an existing member (here the deterministic method mdup with
mh_pop_size = 5), the initialization loop is still running after any number n of
iterations, so it never terminates. -/
theorem dup_rejection_amended (popSize : Nat) (meths : List ConstrMethod) (st : InitState)
    (n : Nat) (hlen : st.pop.length < popSize)
    (hdup : Population.duplicates_of st.pop (initConstruct meths st).1 ≠ []) :
    initStep popSize true meths st
      = .running ⟨st.pop, (initConstruct meths st).1, st.methIdx + 1⟩
    ∧ ∃ st2, initLoop 5 true [mdup] n ⟨[], protoSol, 0⟩ = .running st2 := by
  constructor
  · unfold initStep
    rw [if_pos hlen, if_pos ⟨rfl, hdup⟩]
  · cases n with
    | zero => exact ⟨⟨[], protoSol, 0⟩, rfl⟩
    | succ m =>
      refine ⟨⟨[cdup], cdup, 1 + m⟩, ?_⟩
      have hstep0 : initStep 5 true [mdup] ⟨[], protoSol, 0⟩ = .running ⟨[cdup], cdup, 1⟩ := by
        decide
      have h1 : initLoop 5 true [mdup] (m + 1) ⟨[], protoSol, 0⟩
          = initLoop 5 true [mdup] m ⟨[cdup], cdup, 1⟩ := by
        rw [initLoop_succ, hstep0]
      rw [h1, dup_loop_stuck m 1]

/-- Claim C2, witness for the amended theorem at a concrete rejection state. -/
theorem dup_rejection_amended_witness :
    ((⟨[cdup], cdup, 0⟩ : InitState).pop.length < 5
      ∧ Population.duplicates_of (⟨[cdup], cdup, 0⟩ : InitState).pop
          (initConstruct [mdup] ⟨[cdup], cdup, 0⟩).1 ≠ [])
    ∧ (initStep 5 true [mdup] ⟨[cdup], cdup, 0⟩
        = .running ⟨[cdup], (initConstruct [mdup] ⟨[cdup], cdup, 0⟩).1, 0 + 1⟩
      ∧ ∃ st2, initLoop 5 true [mdup] 3 ⟨[], protoSol, 0⟩ = .running st2) :=
  ⟨⟨by decide, by decide⟩,
    dup_rejection_amended 5 [mdup] ⟨[cdup], cdup, 0⟩ 3 (by decide) (by decide)⟩

/-- Claim C8 (confirmed).  duplicates_of returns exactly the indices whose
solution is is_equal to the given one, in strictly increasing order: membership
in the returned list characterises those indices, and the list is pairwise
increasing.  Python's `==` on solutions is modelled as is_equal (solution.py is
not in src; the spec defines is_equal as structural equality). -/
theorem duplicates_of_exact (pop : List Solution) (sol : Solution) :
    (∀ j, j ∈ Population.duplicates_of pop sol
        ↔ j < pop.length ∧ is_equal (pop.getD j default) sol = true)
    ∧ (Population.duplicates_of pop sol).Pairwise (· < ·) := by
  constructor
  · intro j
    rw [Population.duplicates_of, dupAux_mem]
    constructor
    · rintro ⟨t, ht, he, hj⟩
      have hjt : j = t := by omega
      subst hjt
      exact ⟨ht, he⟩
    · rintro ⟨hj, he⟩
      exact ⟨j, hj, he, by omega⟩
  · exact dupAux_pairwise sol pop 0

/-- Claim C8, witness at a concrete population. -/
theorem duplicates_of_exact_witness :
    (∀ j, j ∈ Population.duplicates_of [cdup, protoSol, cdup] cdup
        ↔ j < ([cdup, protoSol, cdup] : List Solution).length
          ∧ is_equal (([cdup, protoSol, cdup] : List Solution).getD j default) cdup = true)
    ∧ (Population.duplicates_of [cdup, protoSol, cdup] cdup).Pairwise (· < ·) :=
  duplicates_of_exact [cdup, protoSol, cdup] cdup

/-- Claim C9 (confirmed).  On a non-empty population, best() returns an in-range
index whose solution is not worse than any member, and every index below it
holds a strictly worse solution (hence among tied-best indices it is the
lowest); worst() is symmetric.  Solution comparisons are modelled from the spec
(section 4.1), solution.py not being in src. -/
theorem best_worst_extremal (toMax : Bool) (pop : List Solution) (h : 0 < pop.length) :
    (Population.best toMax pop < pop.length
      ∧ (∀ j, j < pop.length →
          is_worse toMax (pop.getD (Population.best toMax pop) default)
            (pop.getD j default) = false)
      ∧ (∀ i, i < Population.best toMax pop →
          is_better toMax (pop.getD (Population.best toMax pop) default)
            (pop.getD i default) = true))
    ∧ (Population.worst toMax pop < pop.length
      ∧ (∀ j, j < pop.length →
          is_better toMax (pop.getD (Population.worst toMax pop) default)
            (pop.getD j default) = false)
      ∧ (∀ i, i < Population.worst toMax pop →
          is_worse toMax (pop.getD (Population.worst toMax pop) default)
            (pop.getD i default) = true)) := by
  unfold Population.best Population.worst
  have hbetter : ∀ a b, is_better toMax a b = true ↔ keyB toMax a < keyB toMax b :=
    fun a b => is_better_true_iff toMax a b
  have hworse : ∀ a b, is_worse toMax a b = true ↔ keyW toMax a < keyW toMax b := by
    intro a b
    rw [is_worse_true_iff]
    unfold keyW
    omega
  obtain ⟨hb1, hb2, hb3⟩ :=
    scanBest_spec (keyB toMax) (is_better toMax) hbetter pop pop.length h
  obtain ⟨hw1, hw2, hw3⟩ :=
    scanBest_spec (keyW toMax) (is_worse toMax) hworse pop pop.length h
  refine ⟨⟨hb1, ?_, ?_⟩, ⟨hw1, ?_, ?_⟩⟩
  · intro j hj
    rw [is_worse_false_iff]
    exact hb2 j hj
  · intro i hi
    rw [is_better_true_iff]
    exact hb3 i hi
  · intro j hj
    rw [is_better_false_iff]
    have := hw2 j hj
    unfold keyW at this
    omega
  · intro i hi
    rw [is_worse_true_iff]
    have := hw3 i hi
    unfold keyW at this
    omega

/-- Claim C9, witness at a concrete two-member population (minimization,
objectives 5 and 3, so best is index 1 and worst is index 0). -/
theorem best_worst_extremal_witness :
    0 < pop2.length
    ∧ ((Population.best false pop2 < pop2.length
        ∧ (∀ j, j < pop2.length →
            is_worse false (pop2.getD (Population.best false pop2) default)
              (pop2.getD j default) = false)
        ∧ (∀ i, i < Population.best false pop2 →
            is_better false (pop2.getD (Population.best false pop2) default)
              (pop2.getD i default) = true))
      ∧ (Population.worst false pop2 < pop2.length
        ∧ (∀ j, j < pop2.length →
            is_better false (pop2.getD (Population.worst false pop2) default)
              (pop2.getD j default) = false)
        ∧ (∀ i, i < Population.worst false pop2 →
            is_worse false (pop2.getD (Population.worst false pop2) default)
              (pop2.getD i default) = true))) :=
  ⟨by decide, best_worst_extremal false pop2 (by decide)⟩

/-- Claim C10 (confirmed).  obj_std raises (StatisticsError from
statistics.stdev) on every population with fewer than two members, obj_avg
raises ValueError on an empty population, and a construction result signalling
terminate legitimately yields such a short population: with mh_pop_size = 5 and
a terminating construction method, initialization stops with a single member. -/
theorem short_population_stats_error :
    (∀ pop : List Solution, pop.length < 2 →
        Population.obj_std pop = .error .statisticsError)
    ∧ (∀ pop : List Solution, pop.length < 1 →
        Population.obj_avg pop = .error .valueError)
    ∧ initLoop 5 false [mterm] 10 ⟨[], protoSol, 0⟩ = .done [cterm]
    ∧ ([cterm] : List Solution).length = 1 := by
  refine ⟨?_, ?_, by decide, rfl⟩
  · intro pop h
    unfold Population.obj_std
    simp only [List.length_map]
    rw [if_pos h]
  · intro pop h
    unfold Population.obj_avg
    rw [if_pos h]

/-- Claim C10, witness: the length-one population produced by the terminating
construction makes obj_std fail, and the empty population makes obj_avg fail. -/
theorem short_population_stats_error_witness :
    ([cterm] : List Solution).length < 2
    ∧ Population.obj_std [cterm] = .error .statisticsError
    ∧ ([] : List Solution).length < 1
    ∧ Population.obj_avg [] = .error .valueError :=
  ⟨by decide, short_population_stats_error.1 [cterm] (by decide),
    by decide, short_population_stats_error.2.1 [] (by decide)⟩

/-- Claim C3, counterexample.  The claim states that select() samples
mh_tournament_size distinct indices (replacement only when the tournament size
exceeds the population size) and that on the population with minimization
objectives [5, 1, 9, 2, 7, 3, 8, 4, 6, 10] and mh_tournament_size = 10 it
returns index 1.  The code (population.py lines 73-82) draws every index with
`random.randint(1, len-1)` independently, so repeats are possible even with
k = size: with the legal draw sequence consisting of ten times index 3 the
returned index is 3, whose objective is 2, not the index of objective 1. -/
theorem selection_with_replacement_cex :
    (3 :: List.replicate 9 3).length = 10
    ∧ (3 :: List.replicate 9 3).all (fun d => decide (1 ≤ d) && decide (d ≤ 9)) = true
    ∧ pop10.length = 10
    ∧ Population.selection false pop10 3 (List.replicate 9 3) = 3
    ∧ (pop10.getD (Population.selection false pop10 3 (List.replicate 9 3)) default).obj = 2
    ∧ (pop10.getD 1 default).obj = 1 := by decide

/-- Claim C3, amended.  The tournament selection (Population.selection, which
the spec calls select()) draws mh_tournament_size indices from [1, size-1]
independently and with replacement — repeats are possible even when the
tournament size does not exceed the population size — and returns a drawn index
no other drawn index strictly beats; it never returns index 0.  Returning the
overall best index is guaranteed only when that index is among the draws. -/
theorem selection_tournament_amended (toMax : Bool) (pop : List Solution) (k first : Nat)
    (rest : List Nat) (hk : rest.length + 1 = k) (_hsz : 2 ≤ pop.length)
    (hf : 1 ≤ first ∧ first ≤ pop.length - 1)
    (hr : ∀ d ∈ rest, 1 ≤ d ∧ d ≤ pop.length - 1) :
    (1 ≤ Population.selection toMax pop first rest
      ∧ Population.selection toMax pop first rest ≤ pop.length - 1)
    ∧ Population.selection toMax pop first rest ∈ first :: rest
    ∧ (first :: rest).length = k
    ∧ ∀ d ∈ first :: rest,
        is_better toMax (pop.getD d default)
          (pop.getD (Population.selection toMax pop first rest) default) = false := by
  obtain ⟨ha, hb, hc⟩ := selection_fold_spec toMax pop rest first hf hr
  exact ⟨ha, hb, by simpa using hk, hc⟩

/-- Claim C3, witness for the amended theorem: draws 1 and 2 on the ten-member
population, tournament size 2; the selection returns index 1 (objective 1). -/
theorem selection_tournament_amended_witness :
    (([2] : List Nat).length + 1 = 2 ∧ 2 ≤ pop10.length
      ∧ (1 ≤ 1 ∧ 1 ≤ pop10.length - 1) ∧ (∀ d ∈ ([2] : List Nat), 1 ≤ d ∧ d ≤ pop10.length - 1))
    ∧ ((1 ≤ Population.selection false pop10 1 [2]
        ∧ Population.selection false pop10 1 [2] ≤ pop10.length - 1)
      ∧ Population.selection false pop10 1 [2] ∈ 1 :: [2]
      ∧ (1 :: [2] : List Nat).length = 2
      ∧ ∀ d ∈ 1 :: [2],
          is_better false (pop10.getD d default)
            (pop10.getD (Population.selection false pop10 1 [2]) default) = false) :=
  ⟨⟨by decide, by decide, by decide, by decide⟩,
    selection_tournament_amended false pop10 2 1 [2] (by decide) (by decide) (by decide)
      (by decide)⟩

/-- Claim C4, counterexample.  The claim states that when the configured seed is
0 a fresh nonzero seed is sampled, and in particular that the stored seed is
nonzero afterwards.  The code (settings.py lines 90-92) samples
`np.random.randint(np.iinfo(np.int32).max)`, which is uniform on
[0, 2^31 - 2] and so can yield 0: with draw 0 the stored seed is 0 again. -/
theorem seed_zero_draw_cex :
    cfgSeed0.seed = 0
    ∧ (0 : Nat) < 2 ^ 31 - 1
    ∧ (seed_random_generators cfgSeed0 0).1.seed = 0 := by
  refine ⟨rfl, by norm_num, rfl⟩

/-- Claim C4, amended.  When the configured seed is 0, a fresh 31-bit integer
drawn uniformly from [0, 2^31 - 2] — possibly zero — is sampled, written back
into the settings snapshot, and used to seed both random number generators: the
stored seed and both generator seeds all equal the draw, which is below 2^31
but need not be nonzero. -/
theorem seed_resample_amended (s : Settings) (draw : Nat)
    (h0 : s.seed = 0) (hd : draw ≤ 2 ^ 31 - 2) :
    (seed_random_generators s draw).1 = { s with seed := draw }
    ∧ (seed_random_generators s draw).2.1 = draw
    ∧ (seed_random_generators s draw).2.2 = draw
    ∧ draw < 2 ^ 31 := by
  have hp : (2 : Nat) ^ 31 = 2147483648 := by norm_num
  unfold seed_random_generators
  rw [if_pos h0]
  exact ⟨rfl, rfl, rfl, by omega⟩

/-- Claim C4, witness for the amended theorem at seed 0 and draw 5. -/
theorem seed_resample_amended_witness :
    (cfgSeed0.seed = 0 ∧ (5 : Nat) ≤ 2 ^ 31 - 2)
    ∧ ((seed_random_generators cfgSeed0 5).1 = { cfgSeed0 with seed := 5 }
      ∧ (seed_random_generators cfgSeed0 5).2.1 = 5
      ∧ (seed_random_generators cfgSeed0 5).2.2 = 5
      ∧ (5 : Nat) < 2 ^ 31) :=
  ⟨⟨rfl, by norm_num⟩, seed_resample_amended cfgSeed0 5 rfl (by norm_num)⟩

/-- Claim C5, counterexample.  The claim states that save followed by load
restores every recognized option, including seed, for every snapshot.  But
load_settings (settings.py line 108) calls seed_random_generators after
restoring the namespace, so a saved seed of 0 is replaced by a freshly sampled
seed: saving a snapshot with seed 0 and loading it with draw 5 yields seed 5. -/
theorem settings_roundtrip_seed_cex :
    cfgSeed0.seed = 0
    ∧ (load_settings (save_settings cfgSeed0) 5).seed = 5 := ⟨rfl, rfl⟩

/-- Claim C5, amended.  Saving a snapshot and loading it back restores every
recognized option to the value saved, provided the saved seed is nonzero; a
saved seed of 0 is resampled at load time by the seed_random_generators call in
load_settings, so the seed field round-trips only when it is nonzero. -/
theorem settings_roundtrip_amended (s : Settings) (draw : Nat) (h : s.seed ≠ 0) :
    load_settings (save_settings s) draw = s := by
  unfold load_settings save_settings seed_random_generators
  rw [if_neg h]

/-- Claim C5, witness for the amended theorem at a nonzero-seed snapshot. -/
theorem settings_roundtrip_amended_witness :
    cfgBadProb.seed ≠ 0
    ∧ load_settings (save_settings cfgBadProb) 5 = cfgBadProb :=
  ⟨by decide, settings_roundtrip_amended cfgBadProb 5 (by decide)⟩

/-- Claim C6, counterexample.  The claim states that a configuration with a
recognized option out of range (e.g. mh_ssga_cross_prob outside [0,1]) raises
InvalidConfiguration before run(), and that run() is entered only on in-range
configurations.  The code performs no validation at all — no InvalidConfiguration
exists in the source — and with mh_ssga_cross_prob = 2 the SSGA constructor
succeeds, so run() is entered on an out-of-range configuration. -/
theorem no_invalid_configuration_cex :
    (1 : ℚ) < cfgBadProb.mh_ssga_cross_prob
    ∧ ssgaInit false cfgBadProb [m1c, m2c] protoSol 10
        = some (Except.ok ⟨[⟨1, 5⟩, ⟨2, 3⟩], [0, 1], 1⟩) := by
  constructor
  · norm_num [cfgBadProb, defaultSettings]
  · rfl

/-- Claim C6, amended.  The code performs no configuration validation and
defines no InvalidConfiguration: an out-of-range mh_ssga_cross_prob = 2 is
accepted and run() is entered, while mh_pop_size = 0 does fail before run() but
with an IndexError — raised when __init__ indexes the best member of the empty
population — not with InvalidConfiguration. -/
theorem no_config_validation_amended :
    (1 : ℚ) < cfgBadProb.mh_ssga_cross_prob
    ∧ (∃ st, ssgaInit false cfgBadProb [m1c, m2c] protoSol 10 = some (Except.ok st))
    ∧ cfgZeroPop.mh_pop_size = 0
    ∧ ssgaInit false cfgZeroPop [m1c, m2c] protoSol 10
        = some (Except.error PyError.indexError) := by
  refine ⟨by norm_num [cfgBadProb, defaultSettings], ⟨⟨[⟨1, 5⟩, ⟨2, 3⟩], [0, 1], 1⟩, rfl⟩, rfl, rfl⟩

/-- Claim C7 (confirmed).  In every run() iteration in which perform_methods
returns a result with terminate set, the while body breaks immediately
(ssga.py lines 94-95): the population slots keep their addresses and contents
(the worst member is not replaced) and the incumbent binding is unchanged.
perform_methods itself lives in scheduler.py, outside src, and is modelled from
the spec as the oracle's opaque effect on the working copy; the only store cell
written before the break is the working copy's own fresh cell. -/
theorem terminate_breaks_loop (toMax : Bool) (st : SSGAState) (o : RunOracle)
    (hvalid : ∀ a ∈ st.popAddrs, a < st.store.length)
    (hterm : (iterChild st o).2 = true) :
    ∃ st2, runIteration toMax st o = .exited st2
      ∧ st2.popAddrs = st.popAddrs ∧ st2.incumbent = st.incumbent
      ∧ ∀ a ∈ st.popAddrs, st2.store.getD a default = st.store.getD a default := by
  refine ⟨⟨iterStore3 st o, st.popAddrs, st.incumbent⟩, ?_, rfl, rfl, ?_⟩
  · unfold runIteration
    rw [if_pos hterm]
  · intro a ha
    have h1 : a < st.store.length := hvalid a ha
    unfold iterStore3
    rw [getD_set_ne_addr _ _ _ _ _ (by omega)]
    unfold iterAlloc
    by_cases hcd : o.crossDraw = true
    · rw [if_pos hcd]
      exact getD_append_lt _ _ _ _ h1
    · rw [if_neg hcd]
      exact getD_append_lt _ _ _ _ h1

/-- Claim C7, witness: a concrete state and a terminating oracle. -/
theorem terminate_breaks_loop_witness :
    (∀ a ∈ st2.popAddrs, a < st2.store.length)
    ∧ ∃ stx, runIteration false st2 oT = .exited stx
      ∧ stx.popAddrs = st2.popAddrs ∧ stx.incumbent = st2.incumbent
      ∧ ∀ a ∈ st2.popAddrs, stx.store.getD a default = st2.store.getD a default :=
  ⟨by decide, terminate_breaks_loop false st2 oT (by decide) rfl⟩

/-- Claim C1, counterexample.  The claim states that the incumbent is a separate
allocation that never aliases a population slot or the working copy, updated via
copy_from, at initialization and in every iteration.  In the code, __init__
(ssga.py line 58) binds the incumbent to the best population slot itself —
address 1 here, a member of the population's address list — and an improving
iteration (ssga.py line 103) rebinds the incumbent to the working copy: the new
incumbent address 2 is exactly the freshly allocated working cell (the old store
length), not a copy_from into the previous incumbent allocation. -/
theorem incumbent_aliasing_cex :
    ssgaMakeState false pop2 = Except.ok st2
    ∧ st2.incumbent ∈ st2.popAddrs
    ∧ runIteration false st2 oImp = .looped st2x
    ∧ st2x.incumbent = st2.store.length := by
  refine ⟨rfl, by decide, rfl, rfl⟩

theorem runIteration_looped_incumbent (toMax : Bool) (st stL : SSGAState) (o : RunOracle)
    (hrun : runIteration toMax st o = .looped stL) :
    stL.incumbent = st.store.length ∨ stL.incumbent = st.incumbent := by
  unfold runIteration at hrun
  by_cases hc : (iterChild st o).2 = true
  · rw [if_pos hc] at hrun
    exact absurd hrun (by simp)
  · rw [if_neg hc] at hrun
    by_cases hi : is_better toMax (iterChild st o).1
        ((iterStore4 toMax st o).getD st.incumbent default) = true
    · rw [if_pos hi, IterOutcome.looped.injEq] at hrun
      subst hrun
      left
      rfl
    · rw [if_neg hi, IterOutcome.looped.injEq] at hrun
      subst hrun
      right
      rfl

/-- Claim C1, amended.  At initialization the incumbent is bound directly to the
best population slot, so it aliases a population slot; in run(), whenever the
incumbent changes in an iteration that reaches the bottom of the loop body, it
has been rebound to the working copy (the freshly allocated cell at the old
store length) rather than overwritten via copy_from — that fresh address is not
a population slot. -/
theorem incumbent_rebinding_amended (toMax : Bool) (pop : List Solution) (o : RunOracle)
    (st stL : SSGAState) (hpop : 0 < pop.length)
    (hmk : ssgaMakeState toMax pop = Except.ok st)
    (hrun : runIteration toMax st o = .looped stL) :
    st.incumbent ∈ st.popAddrs
    ∧ (stL.incumbent ≠ st.incumbent →
        stL.incumbent = st.store.length ∧ stL.incumbent ∉ st.popAddrs) := by
  have hb : Population.best toMax pop < pop.length := by
    unfold Population.best
    exact (scanBest_spec (keyB toMax) (is_better toMax)
      (fun a b => is_better_true_iff toMax a b) pop pop.length hpop).1
  have hopt := runIteration_looped_incumbent toMax st stL o hrun
  unfold ssgaMakeState at hmk
  rw [if_pos hb, Except.ok.injEq] at hmk
  constructor
  · rw [← hmk]
    show (List.range pop.length).getD (Population.best toMax pop) 0 ∈ List.range pop.length
    rw [getD_range_self _ _ hb]
    exact List.mem_range.mpr hb
  · intro hne
    rcases hopt with h | h
    · refine ⟨h, ?_⟩
      rw [h, ← hmk]
      show ¬ pop.length ∈ List.range pop.length
      simp
    · exact absurd h hne

/-- Claim C1, witness for the amended theorem: the concrete two-member scenario
in which the improving iteration rebinds the incumbent to address 2. -/
theorem incumbent_rebinding_amended_witness :
    0 < pop2.length
    ∧ (st2.incumbent ∈ st2.popAddrs
      ∧ (st2x.incumbent ≠ st2.incumbent →
          st2x.incumbent = st2.store.length ∧ st2x.incumbent ∉ st2.popAddrs)) :=
  ⟨by decide, incumbent_rebinding_amended false pop2 oImp st2 st2x (by decide) rfl rfl⟩
